import Mathlib

/-!
Shallow embedding of `src/gen_opts.py`, a build-time code generator that
reads a file of option tokens and prints one boilerplate snippet per line.

Strings from the Python side are modelled as `List Char`.  The script is:

  - `main` reads `sys.argv[1]`; on IndexError it prints
    "Missing file argument." to stderr and returns 1;
  - otherwise it reads the file line by line (`while line := file.readline()`);
  - per line: `full = line.strip()`,
    `matches = re.split("^(SPVC_COMPILER_OPTION_)([A-Z]+_)([0-9A-Z_]+)$", full)`,
    `name = matches[3].lower()`, then prints the f-string template;
  - the top level runs `main()` and discards its return value.

`re.split` with this fully anchored pattern returns the five-element list
`['', g1, g2, g3, '']` when the whole string matches and the one-element
list `[full]` when it does not; `matches[3]` therefore raises IndexError on
a non-matching line.
-/

namespace GenOpts

/-- The literal first capture group `SPVC_COMPILER_OPTION_` of the regex on
line 14 of `gen_opts.py`. -/
def optLit : List Char := "SPVC_COMPILER_OPTION_".data

/-- Membership in the regex class `[A-Z]`. -/
def isUpperC (c : Char) : Bool := 'A' ≤ c && c ≤ 'Z'

/-- Membership in the regex class `[0-9A-Z_]`. -/
def isSufC (c : Char) : Bool := isUpperC c || ('0' ≤ c && c ≤ '9') || c == '_'

/-- Consume an exact literal at the front of a string: `dropLit lit s` is
`some r` when `s = lit ++ r`, else `none`.  Models the anchored literal
group `(SPVC_COMPILER_OPTION_)` at the start of the pattern. -/
def dropLit : List Char → List Char → Option (List Char)
  | [], s => some s
  | _ :: _, [] => none
  | p :: ps, c :: cs => if p = c then dropLit ps cs else none

/-- The capture groups 2 and 3 of a full anchored match of
`^(SPVC_COMPILER_OPTION_)([A-Z]+_)([0-9A-Z_]+)$` against `full`, or `none`
when the string does not match.  The regex engine's leftmost-greedy rule
makes group 2 the first maximal run of `[A-Z]` after the literal followed
by one underscore (a shorter run would have to be followed by `_` but is by
construction followed by another uppercase letter), and group 3, anchored
by `$`, the entire remainder, which must be a nonempty string over
`[0-9A-Z_]`. -/
def spvcGroups (full : List Char) : Option (List Char × List Char) :=
  match dropLit optLit full with
  | none => none
  | some rest =>
    let run := rest.takeWhile isUpperC
    match rest.dropWhile isUpperC with
    | '_' :: suf =>
      if !run.isEmpty && !suf.isEmpty && suf.all isSufC then
        some (run ++ ['_'], suf)
      else none
    | _ => none

/-- The value of `re.split("^(SPVC_COMPILER_OPTION_)([A-Z]+_)([0-9A-Z_]+)$", full)`
(line 14): on a full match the list `['', g1, g2, g3, '']`, otherwise the
unsplit `[full]`. -/
def reSplitSpvc (full : List Char) : List (List Char) :=
  match spvcGroups full with
  | some (cat, suf) => [[], optLit, cat, suf, []]
  | none => [full]

/-- Python `str.lower()` restricted to its ASCII action, which is total on
the characters `[0-9A-Z_]` that can appear in `matches[3]`. -/
def lowerList (l : List Char) : List Char := l.map Char.toLower

/-- Python ASCII whitespace as stripped by `str.strip()` (space, tab,
newline, carriage return, vertical tab, form feed); non-ASCII whitespace
cannot appear in the tokens this script processes. -/
def pySpace (c : Char) : Bool :=
  c == ' ' || c == '\t' || c == '\n' || c == '\r' || c == '\x0b' || c == '\x0c'

/-- `line.strip()` (line 13): drop leading and trailing whitespace. -/
def pyStrip (l : List Char) : List Char :=
  ((l.dropWhile pySpace).reverse.dropWhile pySpace).reverse

/-- The one Python exception the per-line code can raise: `matches[3]` on
the one-element no-match result of `re.split`. -/
inductive PyError
  | indexError
  deriving DecidableEq

/-- The f-string `txt` of lines 16-19: a leading newline, then the three
template lines, with `full` and `name` interpolated. -/
def snippet (full name : List Char) : List Char :=
  "\n    ///\n    #[option(".data ++ full ++ ", false)]\n    pub ".data
    ++ name ++ ": bool,".data

/-- The body of the `while` loop (lines 13-21) for one raw line: strip,
split, index `matches[3]` (IndexError when the pattern did not match),
lower-case, build `txt`.  The result is what `print` is handed. -/
def processLine (line : List Char) : Except PyError (List Char) :=
  let full := pyStrip line
  match (reSplitSpvc full).get? 3 with
  | none => .error .indexError
  | some m => .ok (snippet full (lowerList m))

/-- The bytes one loop iteration adds to standard output: `print(txt)`
emits `txt` plus a newline; a line that raises emits nothing. -/
def emitted (line : List Char) : List Char :=
  match processLine line with
  | .ok s => s ++ ['\n']
  | .error _ => []

/-- The `while line := file.readline()` loop (lines 12-21) over the file's
raw lines: accumulated standard output, and the uncaught exception, if any,
which aborts the loop so that no later line is read or emitted. -/
def runLines : List (List Char) → List Char × Option PyError
  | [] => ([], none)
  | l :: ls =>
    match processLine l with
    | .error e => ([], some e)
    | .ok s =>
      let r := runLines ls
      (s ++ '\n' :: r.1, r.2)

/-- How `main` ends: `returns v` models a Python `return` (with `none` for
falling off the end, i.e. returning `None`), `raises e` an uncaught
exception propagating out. -/
inductive Outcome
  | returns (v : Option Nat)
  | raises (e : PyError)
  deriving DecidableEq

/-- Observable result of one run of `main`: the two streams and the
outcome. -/
structure RunResult where
  stdout : List Char
  stderr : List Char
  outcome : Outcome
  deriving DecidableEq

/-- The function `main` (lines 4-21).  `argv` is `sys.argv` (index 0 is the
script name); `fileLines` are the successive nonempty results of
`file.readline()` for the file `argv[1]` names (the model assumes the file
opens, as every claim about this path does).  `sys.argv[1]` missing is the
only exception the `try` catches; it prints the diagnostic (with the
newline `print` appends) to stderr and returns 1. -/
def mainRun (argv : List (List Char)) (fileLines : List (List Char)) : RunResult :=
  match argv.get? 1 with
  | none => ⟨[], "Missing file argument.\n".data, .returns (some 1)⟩
  | some _ =>
    let r := runLines fileLines
    match r.2 with
    | some e => ⟨r.1, [], .raises e⟩
    | none => ⟨r.1, [], .returns none⟩

/-- The process exit status of `if __name__ == "__main__": main()`
(lines 24-25): CPython discards the value `main` returns — it is not passed
to `sys.exit` — so normal completion of the top level exits with status 0
whatever `main` returned, and an uncaught exception exits with status 1. -/
def exitCode (o : Outcome) : Nat :=
  match o with
  | .returns _ => 0
  | .raises _ => 1

/-- Declarative description of a full match of the pattern
`^(SPVC_COMPILER_OPTION_)([A-Z]+_)([0-9A-Z_]+)$` with category capture
`cat` and suffix capture `suf`, written from the pattern itself: the whole
string is literal ++ cat ++ suf, cat is a nonempty uppercase run followed
by one underscore, and suf is nonempty over `[0-9A-Z_]`. -/
def IsDecomp (full cat suf : List Char) : Prop :=
  full = optLit ++ cat ++ suf ∧
  (∃ run, cat = run ++ ['_'] ∧ run ≠ [] ∧ run.all isUpperC = true) ∧
  suf ≠ [] ∧ suf.all isSufC = true

/-- The field name the script derives for a line, `matches[3].lower()`,
and the empty string for a line that does not match. -/
def fieldName (line : List Char) : List Char :=
  match spvcGroups (pyStrip line) with
  | some (_, suf) => lowerList suf
  | none => []

/-- Consuming the literal succeeds exactly when the string starts with it. -/
theorem dropLit_eq_some (p : List Char) : ∀ s r : List Char,
    dropLit p s = some r ↔ s = p ++ r := by
  induction p with
  | nil => intro s r; simp [dropLit]
  | cons a p ih =>
    intro s r
    cases s with
    | nil => simp [dropLit]
    | cons b s =>
      rcases eq_or_ne a b with rfl | hab
      · simp [dropLit, ih]
      · simp [dropLit, hab, Ne.symm hab]

/-- A nonempty list has `isEmpty = false`. -/
theorem isEmpty_false_of_ne {l : List Char} (h : l ≠ []) : l.isEmpty = false := by
  cases l with
  | nil => exact absurd rfl h
  | cons a t => rfl

/-- `takeWhile`/`dropWhile` split a run of satisfying characters followed
by a failing one exactly at that character. -/
theorem takeWhile_run (p : Char → Bool) (x : Char) (hx : p x = false) :
    ∀ (run t : List Char), (∀ c ∈ run, p c = true) →
      (run ++ x :: t).takeWhile p = run ∧ (run ++ x :: t).dropWhile p = x :: t := by
  intro run
  induction run with
  | nil => intro t _; simp [List.takeWhile_cons, List.dropWhile_cons, hx]
  | cons a run ih =>
    intro t h
    have ha : p a = true := h a (List.mem_cons_self a run)
    have hrest := ih t (fun c hc => h c (List.mem_cons_of_mem a hc))
    simp [List.takeWhile_cons, List.dropWhile_cons, ha, hrest.1, hrest.2]

/-- Two uppercase runs followed by an underscore and a remainder that
produce the same string must agree: the underscore position is forced
because the underscore is not an uppercase letter. -/
theorem run_split_unique : ∀ r1 r2 s1 s2 : List Char,
    (∀ c ∈ r1, isUpperC c = true) → (∀ c ∈ r2, isUpperC c = true) →
    r1 ++ '_' :: s1 = r2 ++ '_' :: s2 → r1 = r2 ∧ s1 = s2 := by
  intro r1
  induction r1 with
  | nil =>
    intro r2 s1 s2 _ h2 he
    cases r2 with
    | nil => simpa using he
    | cons b r2 =>
      exfalso
      have hb : isUpperC b = true := h2 b (List.mem_cons_self b r2)
      simp only [List.nil_append, List.cons_append, List.cons.injEq] at he
      rw [← he.1] at hb
      exact absurd hb (by decide)
  | cons a r1 ih =>
    intro r2 s1 s2 h1 h2 he
    cases r2 with
    | nil =>
      exfalso
      have ha : isUpperC a = true := h1 a (List.mem_cons_self a r1)
      simp only [List.cons_append, List.nil_append, List.cons.injEq] at he
      rw [he.1] at ha
      exact absurd ha (by decide)
    | cons b r2 =>
      simp only [List.cons_append, List.cons.injEq] at he
      obtain ⟨rfl, he2⟩ := he
      obtain ⟨hr, hs⟩ := ih r2 s1 s2 (fun c hc => h1 c (List.mem_cons_of_mem a hc))
        (fun c hc => h2 c (List.mem_cons_of_mem a hc)) he2
      exact ⟨by rw [hr], hs⟩

/-- A list with `isEmpty = false` is not nil. -/
theorem ne_nil_of_isEmpty_false {l : List Char} (h : l.isEmpty = false) : l ≠ [] := by
  intro hn
  rw [hn] at h
  exact absurd h (by decide)

/-- The executable leftmost-greedy match agrees with the declarative
reading of the anchored pattern. -/
theorem spvcGroups_eq_some_iff (full cat suf : List Char) :
    spvcGroups full = some (cat, suf) ↔ IsDecomp full cat suf := by
  constructor
  · intro h
    simp only [spvcGroups] at h
    split at h
    · exact absurd h (by simp)
    · next rest hd =>
      split at h
      · next suf0 hdw =>
        split at h
        · next hcond =>
          simp only [Option.some_inj, Prod.mk.injEq] at h
          obtain ⟨hc, hs⟩ := h
          subst hc
          subst hs
          have hfull : full = optLit ++ rest := (dropLit_eq_some optLit full rest).mp hd
          have hrest : rest = rest.takeWhile isUpperC ++ '_' :: suf0 :=
            (List.takeWhile_append_dropWhile isUpperC rest).symm.trans (by rw [hdw])
          simp only [Bool.and_eq_true, Bool.not_eq_true'] at hcond
          refine ⟨?_, ⟨rest.takeWhile isUpperC, rfl,
            ne_nil_of_isEmpty_false hcond.1.1, ?_⟩,
            ne_nil_of_isEmpty_false hcond.1.2, hcond.2⟩
          · conv_lhs => rw [hfull, hrest]
            simp [List.append_assoc]
          · exact List.all_eq_true.mpr (fun c hc => List.mem_takeWhile_imp hc)
        · exact absurd h (by simp)
      · exact absurd h (by simp)
  · rintro ⟨hfull, ⟨run, rfl, hrne, hrall⟩, hsne, hsall⟩
    have hup : ∀ c ∈ run, isUpperC c = true := fun c hc => List.all_eq_true.mp hrall c hc
    have htw := takeWhile_run isUpperC '_' (by decide) run suf hup
    have hrest : full = optLit ++ (run ++ '_' :: suf) := by
      rw [hfull]
      simp [List.append_assoc]
    have hd : dropLit optLit full = some (run ++ '_' :: suf) :=
      (dropLit_eq_some optLit full _).mpr hrest
    simp only [spvcGroups, hd, htw.1, htw.2]
    simp [isEmpty_false_of_ne hrne, isEmpty_false_of_ne hsne, hsall]

/-- On a matching stripped line, `matches[3]` is the suffix capture and the
iteration builds the `txt` snippet from the stripped line and the
lower-cased suffix. -/
theorem processLine_ok {line cat suf : List Char}
    (h : spvcGroups (pyStrip line) = some (cat, suf)) :
    processLine line = .ok (snippet (pyStrip line) (lowerList suf)) := by
  simp only [processLine, reSplitSpvc, h]
  rfl

/-- On a non-matching stripped line, `re.split` yields the one-element list
and `matches[3]` raises IndexError. -/
theorem processLine_err {line : List Char} (h : spvcGroups (pyStrip line) = none) :
    processLine line = .error .indexError := by
  simp only [processLine, reSplitSpvc, h]
  rfl

/-- The bytes a matching line adds to stdout: the snippet plus the newline
`print` appends. -/
theorem emitted_ok {line cat suf : List Char}
    (h : spvcGroups (pyStrip line) = some (cat, suf)) :
    emitted line = snippet (pyStrip line) (lowerList suf) ++ ['\n'] := by
  unfold emitted
  rw [processLine_ok h]

/-- When every line matches, the loop runs to completion and stdout is the
in-order concatenation of the per-line emissions. -/
theorem runLines_ok : ∀ lines : List (List Char),
    (∀ l ∈ lines, (spvcGroups (pyStrip l)).isSome = true) →
    runLines lines = ((lines.map emitted).flatten, none) := by
  intro lines
  induction lines with
  | nil => intro _; rfl
  | cons l ls ih =>
    intro h
    have hl := h l (List.mem_cons_self l ls)
    obtain ⟨⟨cat, suf⟩, hcs⟩ := Option.isSome_iff_exists.mp hl
    unfold runLines
    rw [processLine_ok hcs, ih (fun x hx => h x (List.mem_cons_of_mem l hx))]
    simp [emitted_ok hcs]

/-- When the lines before position `i` all match and line `i` does not, the
loop emits exactly the blocks of the first `i` lines and then the
IndexError aborts it: nothing of the malformed line or of any later line is
emitted. -/
theorem runLines_abort : ∀ (pre : List (List Char)) (l : List Char) (post : List (List Char)),
    (∀ x ∈ pre, (spvcGroups (pyStrip x)).isSome = true) →
    spvcGroups (pyStrip l) = none →
    runLines (pre ++ l :: post) = ((pre.map emitted).flatten, some PyError.indexError) := by
  intro pre
  induction pre with
  | nil =>
    intro l post _ hl
    simp only [List.nil_append]
    unfold runLines
    rw [processLine_err hl]
    rfl
  | cons x pre ih =>
    intro l post h hl
    have hx := h x (List.mem_cons_self x pre)
    obtain ⟨⟨cat, suf⟩, hcs⟩ := Option.isSome_iff_exists.mp hx
    simp only [List.cons_append]
    unfold runLines
    rw [processLine_ok hcs, ih l post (fun y hy => h y (List.mem_cons_of_mem x hy)) hl]
    simp [emitted_ok hcs]

/-- Claim C1: for every input line whose stripped text matches the pattern
(literal `SPVC_COMPILER_OPTION_`, then `[A-Z]+_`, then `[0-9A-Z_]+`,
anchored), the emitted snippet carries the stripped line text verbatim,
byte-for-byte, as the `<FULL>` placeholder, and the field name in the
snippet is the suffix capture lower-cased. -/
theorem spvc_c1_roundtrip (line cat suf : List Char)
    (h : spvcGroups (pyStrip line) = some (cat, suf)) :
    processLine line = .ok (snippet (pyStrip line) (lowerList suf)) :=
  processLine_ok h

/-- Witness for C1 at the line `SPVC_COMPILER_OPTION_GLSL_VERSION`. -/
theorem spvc_c1_roundtrip_witness :
    processLine "SPVC_COMPILER_OPTION_GLSL_VERSION\n".data =
      .ok (snippet "SPVC_COMPILER_OPTION_GLSL_VERSION".data (lowerList "VERSION".data)) := by
  have h2 := spvc_c1_roundtrip "SPVC_COMPILER_OPTION_GLSL_VERSION\n".data
    "GLSL_".data "VERSION".data (by decide)
  have h3 : pyStrip "SPVC_COMPILER_OPTION_GLSL_VERSION\n".data =
      "SPVC_COMPILER_OPTION_GLSL_VERSION".data := by decide
  rw [h3] at h2
  exact h2

/-- Claim C2: a first malformed line makes `matches[3]` index past the end
of the one-element result of `re.split`, so the loop raises IndexError and
aborts: stdout holds exactly the blocks of the preceding well-formed lines
and no later line contributes anything. -/
theorem spvc_c2_abort (pre : List (List Char)) (l : List Char) (post : List (List Char))
    (hpre : ∀ x ∈ pre, (spvcGroups (pyStrip x)).isSome = true)
    (hl : spvcGroups (pyStrip l) = none) :
    runLines (pre ++ l :: post) = ((pre.map emitted).flatten, some PyError.indexError) :=
  runLines_abort pre l post hpre hl

/-- Witness for C2: one good line, one malformed line, one good line after
it; only the first line is emitted and the run raises IndexError. -/
theorem spvc_c2_abort_witness :
    runLines ["SPVC_COMPILER_OPTION_GLSL_VERSION\n".data, "bad line\n".data,
        "SPVC_COMPILER_OPTION_MSL_ARGUMENT_BUFFERS\n".data] =
      ((["SPVC_COMPILER_OPTION_GLSL_VERSION\n".data].map emitted).flatten,
        some PyError.indexError) :=
  spvc_c2_abort ["SPVC_COMPILER_OPTION_GLSL_VERSION\n".data] "bad line\n".data
    ["SPVC_COMPILER_OPTION_MSL_ARGUMENT_BUFFERS\n".data] (by decide) (by decide)

/-- Claim C3, divergence theorem: invoked with zero path arguments the
program does write exactly the diagnostic line to stderr, writes nothing to
stdout and `main` returns 1 — but line 25 calls `main()` without passing
the result to `sys.exit`, so the interpreter discards it and the process
exit status is 0, not the non-zero status the claim requires. -/
theorem spvc_c3_missing_arg (a0 : List Char) (fileLines : List (List Char)) :
    mainRun [a0] fileLines =
      ⟨[], "Missing file argument.\n".data, .returns (some 1)⟩ ∧
    exitCode (mainRun [a0] fileLines).outcome = 0 :=
  ⟨rfl, rfl⟩

/-- Claim C4: when all `N` stripped lines match, exactly the `N` per-line
blocks are emitted, the `i`-th block coming from the `i`-th line — stdout
is the flattened image of the in-order per-line map, with no reordering,
sorting or deduplication. -/
theorem spvc_c4_order (lines : List (List Char))
    (h : ∀ l ∈ lines, (spvcGroups (pyStrip l)).isSome = true) :
    runLines lines = ((lines.map emitted).flatten, none) :=
  runLines_ok lines h

/-- Witness for C4 on a two-line file (Scenario C's ordering). -/
theorem spvc_c4_order_witness :
    runLines ["SPVC_COMPILER_OPTION_MSL_ARGUMENT_BUFFERS\n".data,
        "SPVC_COMPILER_OPTION_GLSL_VERSION\n".data] =
      ((["SPVC_COMPILER_OPTION_MSL_ARGUMENT_BUFFERS\n".data,
          "SPVC_COMPILER_OPTION_GLSL_VERSION\n".data].map emitted).flatten, none) :=
  spvc_c4_order ["SPVC_COMPILER_OPTION_MSL_ARGUMENT_BUFFERS\n".data,
    "SPVC_COMPILER_OPTION_GLSL_VERSION\n".data] (by decide)

/-- Claim C5: each matched line's block is exactly the fixed template — a
leading newline, then the lines `    ///`, `    #[option(<FULL>, false)]`
and `    pub <field>: bool,` (the last line terminated by the newline
`print` appends) — and stdout is the concatenation of these blocks in input
order with nothing in between. -/
theorem spvc_c5_template (lines : List (List Char))
    (h : ∀ l ∈ lines, (spvcGroups (pyStrip l)).isSome = true) :
    (runLines lines).1 =
      (lines.map (fun l =>
        "\n    ///\n    #[option(".data ++ pyStrip l ++ ", false)]\n    pub ".data
          ++ fieldName l ++ ": bool,\n".data)).flatten := by
  rw [runLines_ok lines h]
  refine congrArg List.flatten (List.map_congr_left ?_)
  intro l hl
  obtain ⟨⟨cat, suf⟩, hcs⟩ := Option.isSome_iff_exists.mp (h l hl)
  rw [emitted_ok hcs]
  unfold snippet fieldName
  rw [hcs]
  have hnl : (": bool,\n".data : List Char) = ": bool,".data ++ ['\n'] := by decide
  rw [hnl]
  simp [List.append_assoc]

/-- Witness for C5 on a concrete one-line file. -/
theorem spvc_c5_template_witness :
    (runLines ["SPVC_COMPILER_OPTION_GLSL_VERSION\n".data]).1 =
      (["SPVC_COMPILER_OPTION_GLSL_VERSION\n".data].map (fun l =>
        "\n    ///\n    #[option(".data ++ pyStrip l ++ ", false)]\n    pub ".data
          ++ fieldName l ++ ": bool,\n".data)).flatten :=
  spvc_c5_template ["SPVC_COMPILER_OPTION_GLSL_VERSION\n".data] (by decide)

/-- Claim C6, Scenario A: on the single line
`SPVC_COMPILER_OPTION_MSL_ARGUMENT_BUFFERS` the category capture is `MSL_`,
the suffix capture is `ARGUMENT_BUFFERS` (underscores included), and the
one emitted block carries the full token verbatim with field name
`argument_buffers`. -/
theorem spvc_c6_scenario_a :
    spvcGroups "SPVC_COMPILER_OPTION_MSL_ARGUMENT_BUFFERS".data =
      some ("MSL_".data, "ARGUMENT_BUFFERS".data) ∧
    mainRun ["gen_opts.py".data, "options.txt".data]
        ["SPVC_COMPILER_OPTION_MSL_ARGUMENT_BUFFERS\n".data] =
      ⟨"\n    ///\n    #[option(SPVC_COMPILER_OPTION_MSL_ARGUMENT_BUFFERS, false)]\n    pub argument_buffers: bool,\n".data,
        [], .returns none⟩ := by
  constructor <;> decide

/-- Claim C7: a line that strips to the empty string fails the anchored
match, so the iteration takes the malformed-line path (IndexError from
`matches[3]`) and emits no block. -/
theorem spvc_c7_blank_line (line : List Char) (h : pyStrip line = []) :
    processLine line = .error .indexError ∧ emitted line = [] := by
  have hm : spvcGroups (pyStrip line) = none := by
    rw [h]
    decide
  refine ⟨processLine_err hm, ?_⟩
  unfold emitted
  rw [processLine_err hm]

/-- Witness for C7 at a whitespace-only line. -/
theorem spvc_c7_blank_line_witness :
    processLine " \n".data = .error .indexError ∧ emitted " \n".data = [] :=
  spvc_c7_blank_line " \n".data (by decide)

/-- Claim C8, Scenario D: with a path argument present and an empty file,
the loop body never runs: stdout and stderr are empty and the run ends with
`main` falling off the end (returning `None`), a process exit status of
0. -/
theorem spvc_c8_empty_file (a0 a1 : List Char) (rest : List (List Char)) :
    mainRun (a0 :: a1 :: rest) [] = ⟨[], [], .returns none⟩ ∧
    exitCode (mainRun (a0 :: a1 :: rest) []).outcome = 0 :=
  ⟨rfl, rfl⟩

/-- Claim C9: the three-group decomposition of a matching token is unique —
the executable greedy match and the declarative pattern reading agree, two
decompositions of the same token coincide, the category capture is always
the first maximal uppercase run after the literal plus the single following
underscore, and a token whose remainder is one uppercase run ending in a
final underscore (empty suffix) does not match. -/
theorem spvc_c9_unique_decomposition :
    (∀ full cat suf : List Char,
        spvcGroups full = some (cat, suf) ↔ IsDecomp full cat suf)
  ∧ (∀ full c1 s1 c2 s2 : List Char,
        IsDecomp full c1 s1 → IsDecomp full c2 s2 → c1 = c2 ∧ s1 = s2)
  ∧ (∀ full cat suf : List Char, IsDecomp full cat suf →
        cat = (full.drop optLit.length).takeWhile isUpperC ++ ['_'])
  ∧ (∀ run : List Char, run.all isUpperC = true →
        spvcGroups (optLit ++ run ++ ['_']) = none) := by
  refine ⟨spvcGroups_eq_some_iff, ?_, ?_, ?_⟩
  · rintro full c1 s1 c2 s2 ⟨h1, ⟨r1, rfl, hr1ne, hr1⟩, hs1ne, hx1⟩
      ⟨h2, ⟨r2, rfl, hr2ne, hr2⟩, hs2ne, hx2⟩
    have h3 : optLit ++ (r1 ++ '_' :: s1) = optLit ++ (r2 ++ '_' :: s2) := by
      have h4 := h1.symm.trans h2
      simpa [List.append_assoc] using h4
    have heq : r1 ++ '_' :: s1 = r2 ++ '_' :: s2 := List.append_cancel_left h3
    obtain ⟨hr, hs⟩ := run_split_unique r1 r2 s1 s2
      (fun c hc => List.all_eq_true.mp hr1 c hc)
      (fun c hc => List.all_eq_true.mp hr2 c hc) heq
    exact ⟨by rw [hr], hs⟩
  · rintro full cat suf ⟨hfull, ⟨run, rfl, hrne, hr⟩, hsne, hs⟩
    have hup : ∀ c ∈ run, isUpperC c = true := fun c hc => List.all_eq_true.mp hr c hc
    have htw := takeWhile_run isUpperC '_' (by decide) run suf hup
    have hdrop : full.drop optLit.length = run ++ '_' :: suf := by
      rw [hfull]
      have h5 : optLit ++ (run ++ ['_']) ++ suf = optLit ++ (run ++ '_' :: suf) := by
        simp [List.append_assoc]
      rw [h5, List.drop_left]
    rw [hdrop, htw.1]
  · intro run hr
    by_contra hne
    obtain ⟨⟨cat, suf⟩, hcs⟩ := Option.ne_none_iff_exists'.mp hne
    obtain ⟨hfull, ⟨run2, rfl, hr2ne, hr2⟩, hsne, hx⟩ :=
      (spvcGroups_eq_some_iff _ _ _).mp hcs
    have h3 : optLit ++ (run ++ '_' :: ([] : List Char)) = optLit ++ (run2 ++ '_' :: suf) := by
      simpa [List.append_assoc] using hfull
    have heq := List.append_cancel_left h3
    obtain ⟨hrq, hsq⟩ := run_split_unique run run2 [] suf
      (fun c hc => List.all_eq_true.mp hr c hc)
      (fun c hc => List.all_eq_true.mp hr2 c hc) heq
    exact hsne hsq.symm

/-- Witness for C9: both uniqueness hypotheses discharged at the concrete
decomposition of `SPVC_COMPILER_OPTION_MSL_ARGUMENT_BUFFERS`. -/
theorem spvc_c9_unique_decomposition_witness :
    ("MSL_".data : List Char) = "MSL_".data ∧
    ("ARGUMENT_BUFFERS".data : List Char) = "ARGUMENT_BUFFERS".data := by
  have hd : IsDecomp "SPVC_COMPILER_OPTION_MSL_ARGUMENT_BUFFERS".data "MSL_".data
      "ARGUMENT_BUFFERS".data :=
    ⟨by decide, ⟨"MSL".data, by decide, by decide, by decide⟩, by decide, by decide⟩
  exact spvc_c9_unique_decomposition.2.1 _ _ _ _ _ hd hd

/-- Claim C10: arguments beyond `sys.argv[1]` are never consulted, and the
script name is not either: two invocations agreeing on the first positional
argument and on the file contents produce identical stdout and stderr,
whatever extra arguments are supplied. -/
theorem spvc_c10_extra_args (a0 b0 a1 : List Char) (rest rest2 : List (List Char))
    (fileLines : List (List Char)) :
    (mainRun (a0 :: a1 :: rest) fileLines).stdout =
      (mainRun (b0 :: a1 :: rest2) fileLines).stdout ∧
    (mainRun (a0 :: a1 :: rest) fileLines).stderr =
      (mainRun (b0 :: a1 :: rest2) fileLines).stderr :=
  ⟨rfl, rfl⟩

end GenOpts
